import Mathlib

/-!
Verification of the algoroom backend core: the Session Store / Session
Service (src/backend/app/services/session_service.py together with the
repository contract of spec §4.1), the Broadcast Hub
(src/backend/app/websocket.py, `ConnectionManager`), the REST update-code
route (src/backend/app/routers/sessions.py) and the WebSocket gateway
(src/backend/app/main.py, `websocket_endpoint`).

Python `dict`s are embedded as association lists, WebSocket connections and
session ids as natural numbers, timestamps as naturals, and the pydantic
`participants: int (ge=0)` field as an `Int` whose non-negativity is proved
rather than assumed.  The repository implementation (app/repositories/) is
not part of the sources; its operations are modelled from the spec, as
marked on each definition.
-/

namespace Algoroom

/-- The `Language` literal type from src/backend/app/models.py. -/
inductive Language where
  | javascript
  | python
deriving DecidableEq, Repr

/-- The `Session` record from src/backend/app/models.py.  `participants`
is an `Int`: pydantic only validates `ge=0`, it does not clamp, so
non-negativity is a property to prove, not a feature of the type. -/
structure Session where
  id : Nat
  code : String
  language : Language
  createdAt : Nat
  participants : Int
deriving DecidableEq, Repr

/-- The `UpdateCodeRequest` model from src/backend/app/models.py:
a mandatory `code` and an optional `language`. -/
structure UpdateCodeRequest where
  code : String
  language : Option Language
deriving DecidableEq, Repr

/-- The session repository state: the stored records plus a counter used
to generate fresh ids (the source uses UUIDs; freshness is the only
property the spec relies on). -/
structure Store where
  sessions : List Session
  nextId : Nat
deriving DecidableEq, Repr

/-- Well-formedness of a store: every stored id was generated by the
id counter, so the next id is fresh. -/
def Store.WF (st : Store) : Prop :=
  ∀ s ∈ st.sessions, s.id < st.nextId

instance (st : Store) : Decidable st.WF :=
  List.decidableBAll _ st.sessions

/-- Replace every stored record whose id matches `s.id` by `s`
(ids are unique in reachable stores; the embedding does not need that). -/
def replaceById : List Session → Session → List Session
  | [], _ => []
  | t :: l, s => if t.id = s.id then s :: replaceById l s else t :: replaceById l s

/-- Lookup of a session record by id in the backing list. -/
def findSession : List Session → Nat → Option Session
  | [], _ => none
  | t :: l, sid => if t.id = sid then some t else findSession l sid

/-- Modelled from the spec: `get(id)` is a pure lookup; absent is a valid
outcome, not an error (spec §4.1). -/
def Store.get (st : Store) (sid : Nat) : Option Session :=
  findSession st.sessions sid

/-- Modelled from the spec: `create(language)` constructs a record with a
fresh unique id, the given language, empty code, participants = 0 and the
current timestamp (spec §4.1). -/
def Store.create (st : Store) (lang : Language) (now : Nat) : Session × Store :=
  let s : Session := ⟨st.nextId, "", lang, now, 0⟩
  (s, ⟨st.sessions ++ [s], st.nextId + 1⟩)

/-- Modelled from the spec: `update(session)` replaces the stored record
matching the given id with the supplied full record; if the id no longer
exists it signals absent rather than re-creating it (spec §4.1). -/
def Store.update (st : Store) (s : Session) : Option Session × Store :=
  match findSession st.sessions s.id with
  | none => (none, st)
  | some _ => (some s, ⟨replaceById st.sessions s, st.nextId⟩)

/-- Modelled from the spec: `increment_participants(id)` atomically adds
one to the counter, absent if the id does not exist (spec §4.1). -/
def Store.incr (st : Store) (sid : Nat) : Option Session × Store :=
  match st.get sid with
  | none => (none, st)
  | some s =>
      let s' : Session := { s with participants := s.participants + 1 }
      (some s', ⟨replaceById st.sessions s', st.nextId⟩)

/-- Modelled from the spec: `decrement_participants(id)` atomically
subtracts one from the counter but clamps at 0 rather than going negative;
absent if the id does not exist (spec §4.1). -/
def Store.decr (st : Store) (sid : Nat) : Option Session × Store :=
  match st.get sid with
  | none => (none, st)
  | some s =>
      let s' : Session := { s with participants := max (s.participants - 1) 0 }
      (some s', ⟨replaceById st.sessions s', st.nextId⟩)

/-- `SessionService.update_code` from
src/backend/app/services/session_service.py: fetch the record, return
absent when missing, otherwise copy it replacing `code` unconditionally
and `language` only when the request supplies one, then persist the copy
through the repository `update`. -/
def SessionService.update_code (st : Store) (sid : Nat) (req : UpdateCodeRequest) :
    Option Session × Store :=
  match st.get sid with
  | none => (none, st)
  | some session =>
      let updated : Session :=
        { session with
            code := req.code
            language := req.language.getD session.language }
      st.update updated

/-- `SessionService.add_participant`: thin delegation to the repository
counter operation (src/backend/app/services/session_service.py). -/
def SessionService.add_participant (st : Store) (sid : Nat) : Option Session × Store :=
  st.incr sid

/-- `SessionService.remove_participant`: thin delegation to the repository
counter operation (src/backend/app/services/session_service.py). -/
def SessionService.remove_participant (st : Store) (sid : Nat) : Option Session × Store :=
  st.decr sid

/-- Outcome of the PUT /sessions/\x7bid\x7d/code route: the updated session or
the 404 not-found response. -/
inductive RouterResult where
  | ok (s : Session)
  | notFound
deriving DecidableEq, Repr

/-- A code-update broadcast task scheduled by the route
(`background_tasks.add_task(ws_manager.broadcast_code_update, ...)`):
session id, code and language of the event. -/
structure CodeUpdateTask where
  sessionId : Nat
  code : String
  language : Language
deriving DecidableEq, Repr

/-- The `update_code` route handler from src/backend/app/routers/sessions.py:
call the service; on absence answer 404 and schedule nothing; on success
answer the session and schedule exactly one code-update broadcast task. -/
def update_code_route (st : Store) (sid : Nat) (req : UpdateCodeRequest) :
    RouterResult × Store × List CodeUpdateTask :=
  match SessionService.update_code st sid req with
  | (none, st') => (RouterResult.notFound, st', [])
  | (some s, st') => (RouterResult.ok s, st', [⟨sid, s.code, s.language⟩])

/-- The Broadcast Hub (`ConnectionManager` from src/backend/app/websocket.py):
a dict mapping each session id to the list of live WebSocket connections,
embedded as an association list (new keys are appended, matching dict
insertion order; connections are opaque naturals). -/
structure ConnectionManager where
  connections : List (Nat × List Nat)
deriving DecidableEq, Repr

/-- Dict lookup on the registry's entry list. -/
def lookupEntry : List (Nat × List Nat) → Nat → Option (List Nat)
  | [], _ => none
  | e :: L, sid => if e.1 = sid then some e.2 else lookupEntry L sid

/-- Replace the value stored under an existing key. -/
def setEntry : List (Nat × List Nat) → Nat → List Nat → List (Nat × List Nat)
  | [], _, _ => []
  | e :: L, sid, v => if e.1 = sid then (e.1, v) :: setEntry L sid v else e :: setEntry L sid v

/-- Delete a key from the registry (`del self._connections[session_id]`). -/
def delEntry : List (Nat × List Nat) → Nat → List (Nat × List Nat)
  | [], _ => []
  | e :: L, sid => if e.1 = sid then delEntry L sid else e :: delEntry L sid

/-- Dict lookup `self._connections.get(session_id)`. -/
def ConnectionManager.lookup (m : ConnectionManager) (sid : Nat) : Option (List Nat) :=
  lookupEntry m.connections sid

/-- The connection list currently registered for a session
(`self._connections.get(session_id, [])`). -/
def ConnectionManager.conns (m : ConnectionManager) (sid : Nat) : List Nat :=
  (m.lookup sid).getD []

/-- `ConnectionManager.connect`: create the entry when the session id is
new, then append the connection to the session's list
(src/backend/app/websocket.py lines 22-27; the transport-level `accept`
has no effect on the registry). -/
def ConnectionManager.connect (m : ConnectionManager) (c : Nat) (sid : Nat) :
    ConnectionManager :=
  match m.lookup sid with
  | none => ⟨m.connections ++ [(sid, [c])]⟩
  | some l => ⟨setEntry m.connections sid (l ++ [c])⟩

/-- `ConnectionManager.disconnect` (src/backend/app/websocket.py lines
29-36): when the session has an entry, remove the first occurrence of the
connection if present (`list.remove`), then delete the whole entry if the
list is now empty; otherwise do nothing. -/
def ConnectionManager.disconnect (m : ConnectionManager) (c : Nat) (sid : Nat) :
    ConnectionManager :=
  match m.lookup sid with
  | none => m
  | some l =>
      let l' := l.erase c
      if l' = [] then ⟨delEntry m.connections sid⟩
      else ⟨setEntry m.connections sid l'⟩

/-- `ConnectionManager.get_participant_count`
(src/backend/app/websocket.py lines 38-40). -/
def ConnectionManager.get_participant_count (m : ConnectionManager) (sid : Nat) : Nat :=
  (m.conns sid).length

/-- `ConnectionManager.broadcast` (src/backend/app/websocket.py lines
42-55): iterate over the session's connections in order, attempting a send
to each; a send either succeeds (the connection receives the message) or
raises (`fails c = true`), in which case the connection is collected as
dead; after the loop every dead connection is pruned through `disconnect`.
Returns the new registry and the list of connections that received the
message, in send order.  The Python `except Exception` makes the whole
call total: it is a function, it can raise nothing. -/
def ConnectionManager.broadcast (m : ConnectionManager) (sid : Nat) (fails : Nat → Bool) :
    ConnectionManager × List Nat :=
  let conns := m.conns sid
  let delivered := conns.filter (fun c => !(fails c))
  let dead := conns.filter (fun c => fails c)
  (dead.foldl (fun mm d => mm.disconnect d sid) m, delivered)

/-- The registry invariant of claim C10: no session id is mapped to an
empty connection list. -/
def ConnectionManager.noEmpty (m : ConnectionManager) : Prop :=
  ∀ e ∈ m.connections, e.2 ≠ []

instance (m : ConnectionManager) : Decidable m.noEmpty :=
  List.decidableBAll _ m.connections

/-- An atomic participant-counter operation on the Session Store:
`increment_participants` or `decrement_participants`.  In any interleaving
of concurrent counter calls each call is one atomic step (spec §4.1:
"atomic with respect to each other"), so an interleaving is a sequence of
these operations. -/
inductive CounterOp where
  | inc
  | dec
deriving DecidableEq, BEq, Repr

/-- Apply one atomic counter operation to the store. -/
def applyCounterOp (sid : Nat) (st : Store) : CounterOp → Store
  | CounterOp.inc => (st.incr sid).2
  | CounterOp.dec => (st.decr sid).2

/-- Run an interleaving of counter operations against one session id. -/
def runCounterOps (st : Store) (sid : Nat) (ops : List CounterOp) : Store :=
  ops.foldl (applyCounterOp sid) st

/-- Number of `increment_participants` calls in an interleaving. -/
def countInc : List CounterOp → Nat
  | [] => 0
  | CounterOp.inc :: ops => countInc ops + 1
  | CounterOp.dec :: ops => countInc ops

/-- Number of `decrement_participants` calls in an interleaving. -/
def countDec : List CounterOp → Nat
  | [] => 0
  | CounterOp.inc :: ops => countDec ops
  | CounterOp.dec :: ops => countDec ops + 1

/-- The pure effect of one counter operation on a participants value
(`decr` clamps at 0, per spec §4.1). -/
def applyCtr (p : Int) : CounterOp → Int
  | CounterOp.inc => p + 1
  | CounterOp.dec => max (p - 1) 0

/-- Every stored participants value is non-negative. -/
def Store.nonNeg (st : Store) : Prop :=
  ∀ s ∈ st.sessions, 0 ≤ s.participants

instance (st : Store) : Decidable st.nonNeg :=
  List.decidableBAll _ st.sessions

/-- Model of two concurrent `ConnectionManager.broadcast` calls for the
same session (src/backend/app/websocket.py lines 42-55, driven as FastAPI
background tasks by two PUT /code requests): task 1 delivers event `e1`
and task 2 delivers event `e2`, each to its remaining subscriber list in
registry order.  Every `await connection.send_json(...)` is an asyncio
suspension point, so between any two sends the event loop may run the
other task; the schedule (a list of Booleans, `true` = task 1 performs its
next pending send) picks the interleaving.  The result is the global
delivery log as (connection, event) pairs in real-time order. -/
def runTwoBroadcasts (e1 e2 : Nat) : List Nat → List Nat → List Bool → List (Nat × Nat)
  | _, _, [] => []
  | p1, p2, true :: sch =>
      match p1 with
      | [] => runTwoBroadcasts e1 e2 [] p2 sch
      | c :: p1' => (c, e1) :: runTwoBroadcasts e1 e2 p1' p2 sch
  | p1, p2, false :: sch =>
      match p2 with
      | [] => runTwoBroadcasts e1 e2 p1 [] sch
      | c :: p2' => (c, e2) :: runTwoBroadcasts e1 e2 p1 p2' sch

/-- The sequence of events one subscriber observes, in delivery order. -/
def observedBy (log : List (Nat × Nat)) (c : Nat) : List Nat :=
  (log.filter (fun p => p.1 = c)).map (fun p => p.2)

/-- Combined state of the Session Store and the Broadcast Hub, as driven
by the WebSocket gateway (src/backend/app/main.py). -/
structure GatewayState where
  store : Store
  hub : ConnectionManager
deriving DecidableEq, Repr

/-- A gateway-level event: a client WebSocket connect or disconnect. -/
inductive GEvent where
  | connect (c : Nat) (sid : Nat)
  | disconnect (c : Nat) (sid : Nat)
deriving DecidableEq, Repr

/-- The participants value the gateway reads back after a counter
mutation: `updated_session.participants if updated_session else 0`
(src/backend/app/main.py lines 114-115 and 135-136). -/
def participantCountOf (st : Store) (sid : Nat) : Int :=
  match st.get sid with
  | some s => s.participants
  | none => 0

/-- One completed gateway operation (src/backend/app/main.py,
`websocket_endpoint`).  Connect: check the session exists (else close and
register nothing), register the connection with the hub, increment the
store counter, read the count back, broadcast `participant_joined` with
it.  Disconnect (the `finally` block): remove the connection from the hub,
decrement the store counter, read the count back, broadcast
`participant_left` with it.  `fails` says which subscriber sends fail
during the broadcast.  Returns the new state and the (session id, count)
payloads of the participant events broadcast by this operation. -/
def gwConnect (fails : Nat → Bool) (g : GatewayState) (c sid : Nat) :
    GatewayState × List (Nat × Int) :=
  match g.store.get sid with
  | none => (g, [])
  | some _ =>
      let hub1 := g.hub.connect c sid
      let st1 := (SessionService.add_participant g.store sid).2
      let cnt := participantCountOf st1 sid
      let hub2 := (hub1.broadcast sid fails).1
      (⟨st1, hub2⟩, [(sid, cnt)])

/-- The `finally` block of `websocket_endpoint`
(src/backend/app/main.py lines 127-138). -/
def gwDisconnect (fails : Nat → Bool) (g : GatewayState) (c sid : Nat) :
    GatewayState × List (Nat × Int) :=
  let hub1 := g.hub.disconnect c sid
  let st1 := (SessionService.remove_participant g.store sid).2
  let cnt := participantCountOf st1 sid
  let hub2 := (hub1.broadcast sid fails).1
  (⟨st1, hub2⟩, [(sid, cnt)])

def gwStep (fails : Nat → Bool) (g : GatewayState) : GEvent → GatewayState × List (Nat × Int)
  | GEvent.connect c sid => gwConnect fails g c sid
  | GEvent.disconnect c sid => gwDisconnect fails g c sid

/-- The failure-free send environment: no subscriber send ever raises. -/
def noSendFailures : Nat → Bool := fun _ => false

/-- Run a sequence of completed gateway operations. -/
def gwRun (fails : Nat → Bool) (g : GatewayState) : List GEvent → GatewayState
  | [] => g
  | e :: tr => gwRun fails (gwStep fails g e).1 tr

/-- A gateway event is well-formed in a state when a disconnect only
concerns a currently registered connection (the gateway's `finally` block
runs exactly once, for a connection that did connect). -/
def wfStep (g : GatewayState) : GEvent → Bool
  | GEvent.connect _ _ => true
  | GEvent.disconnect c sid => decide (c ∈ g.hub.conns sid)

/-- Well-formedness of a whole gateway trace from a state. -/
def WFTrace (fails : Nat → Bool) : GatewayState → List GEvent → Prop
  | _, [] => True
  | g, e :: tr => wfStep g e = true ∧ WFTrace fails (gwStep fails g e).1 tr

instance instDecWFTrace (fails : Nat → Bool) :
    (g : GatewayState) → (tr : List GEvent) → Decidable (WFTrace fails g tr)
  | _, [] => Decidable.isTrue trivial
  | g, e :: tr =>
      @instDecidableAnd _ _ inferInstance (instDecWFTrace fails (gwStep fails g e).1 tr)

/-- The count-consistency invariant between the Session Store and the
Broadcast Hub: every stored session's `participants` equals the number of
hub connections registered under its id, and every hub registry entry
belongs to a stored session. -/
def GatewayState.Inv (g : GatewayState) : Prop :=
  (∀ s ∈ g.store.sessions, s.participants = ((g.hub.conns s.id).length : Int)) ∧
  (∀ e ∈ g.hub.connections, ∃ s ∈ g.store.sessions, s.id = e.1)

instance (g : GatewayState) : Decidable g.Inv :=
  @instDecidableAnd _ _ (List.decidableBAll _ g.store.sessions)
    (List.decidableBAll _ g.hub.connections)

/-! ### Association-list lemmas for the hub registry -/

theorem lookupEntry_append_of_none (L1 L2 : List (Nat × List Nat)) (sid : Nat)
    (h : lookupEntry L1 sid = none) :
    lookupEntry (L1 ++ L2) sid = lookupEntry L2 sid := by
  induction L1 with
  | nil => simp
  | cons x L1 ih =>
      by_cases hx : x.1 = sid
      · simp [lookupEntry, hx] at h
      · simp only [List.cons_append, lookupEntry, hx, if_false] at h ⊢
        exact ih h

theorem lookupEntry_setEntry_self (L : List (Nat × List Nat)) (sid : Nat) (v : List Nat)
    (h : (lookupEntry L sid).isSome) :
    lookupEntry (setEntry L sid v) sid = some v := by
  induction L with
  | nil => simp [lookupEntry] at h
  | cons x L ih =>
      by_cases hx : x.1 = sid
      · simp [lookupEntry, setEntry, hx]
      · simp only [lookupEntry, setEntry, hx, if_false] at h ⊢
        exact ih h

theorem lookupEntry_setEntry_other (L : List (Nat × List Nat)) (sid sid' : Nat)
    (v : List Nat) (hne : sid' ≠ sid) :
    lookupEntry (setEntry L sid v) sid' = lookupEntry L sid' := by
  have hne' : ¬ sid = sid' := fun hh => hne hh.symm
  induction L with
  | nil => simp [setEntry]
  | cons x L ih =>
      by_cases hx : x.1 = sid
      · simp [setEntry, lookupEntry, hx, hne', ih]
      · by_cases hx' : x.1 = sid'
        · simp [setEntry, lookupEntry, hx, hx', hne]
        · simp [setEntry, lookupEntry, hx, hx', ih]

theorem lookupEntry_delEntry_self (L : List (Nat × List Nat)) (sid : Nat) :
    lookupEntry (delEntry L sid) sid = none := by
  induction L with
  | nil => simp [delEntry, lookupEntry]
  | cons x L ih =>
      by_cases hx : x.1 = sid
      · simp [delEntry, hx, ih]
      · simp [delEntry, lookupEntry, hx, ih]

theorem lookupEntry_delEntry_other (L : List (Nat × List Nat)) (sid sid' : Nat)
    (hne : sid' ≠ sid) :
    lookupEntry (delEntry L sid) sid' = lookupEntry L sid' := by
  have hne' : ¬ sid = sid' := fun hh => hne hh.symm
  induction L with
  | nil => simp [delEntry]
  | cons x L ih =>
      by_cases hx : x.1 = sid
      · simp [delEntry, lookupEntry, hx, hne', ih]
      · by_cases hx' : x.1 = sid'
        · simp [delEntry, lookupEntry, hx, hx', hne]
        · simp [delEntry, lookupEntry, hx, hx', ih]

theorem lookupEntry_mem (L : List (Nat × List Nat)) (sid : Nat) (l : List Nat)
    (h : lookupEntry L sid = some l) : (sid, l) ∈ L := by
  induction L with
  | nil => simp [lookupEntry] at h
  | cons x L ih =>
      by_cases hx : x.1 = sid
      · simp only [lookupEntry, hx, if_true] at h
        cases h
        subst hx
        exact List.mem_cons_self _ _
      · simp only [lookupEntry, hx, if_false] at h
        exact List.mem_cons_of_mem _ (ih h)

/-! ### Behaviour of the hub operations on the registered connection lists -/

theorem lookupEntry_append_single_other (L : List (Nat × List Nat)) (sid sid' : Nat)
    (v : List Nat) (hne : sid' ≠ sid) :
    lookupEntry (L ++ [(sid, v)]) sid' = lookupEntry L sid' := by
  have hne' : ¬ sid = sid' := fun hh => hne hh.symm
  induction L with
  | nil => simp [lookupEntry, hne']
  | cons x L ih =>
      by_cases hx : x.1 = sid'
      · simp [lookupEntry, hx]
      · simp [lookupEntry, hx, ih]

theorem conns_connect_self (m : ConnectionManager) (c sid : Nat) :
    (m.connect c sid).conns sid = m.conns sid ++ [c] := by
  unfold ConnectionManager.connect
  cases h : m.lookup sid with
  | none =>
      have h' : lookupEntry m.connections sid = none := h
      have hc : m.conns sid = [] := by
        show (lookupEntry m.connections sid).getD [] = []
        rw [h']
        rfl
      show (lookupEntry (m.connections ++ [(sid, [c])]) sid).getD [] = m.conns sid ++ [c]
      rw [lookupEntry_append_of_none _ _ _ h', hc]
      simp [lookupEntry]
  | some l =>
      have h' : lookupEntry m.connections sid = some l := h
      show (lookupEntry (setEntry m.connections sid (l ++ [c])) sid).getD [] = _
      rw [lookupEntry_setEntry_self _ _ _ (by rw [h']; rfl)]
      show l ++ [c] = (lookupEntry m.connections sid).getD [] ++ [c]
      rw [h']
      rfl

theorem conns_connect_other (m : ConnectionManager) (c sid sid' : Nat)
    (hne : sid' ≠ sid) : (m.connect c sid).conns sid' = m.conns sid' := by
  unfold ConnectionManager.connect
  cases h : m.lookup sid with
  | none =>
      show (lookupEntry (m.connections ++ [(sid, [c])]) sid').getD [] = _
      rw [lookupEntry_append_single_other _ _ _ _ hne]
      rfl
  | some l =>
      show (lookupEntry (setEntry m.connections sid (l ++ [c])) sid').getD [] = _
      rw [lookupEntry_setEntry_other _ _ _ _ hne]
      rfl

theorem conns_disconnect_self (m : ConnectionManager) (c sid : Nat) :
    (m.disconnect c sid).conns sid = (m.conns sid).erase c := by
  unfold ConnectionManager.disconnect
  cases h : m.lookup sid with
  | none =>
      have h' : lookupEntry m.connections sid = none := h
      show (lookupEntry m.connections sid).getD [] = ((lookupEntry m.connections sid).getD []).erase c
      rw [h']
      rfl
  | some l =>
      have h' : lookupEntry m.connections sid = some l := h
      by_cases hl : l.erase c = []
      · simp only [hl, if_true]
        show (lookupEntry (delEntry m.connections sid) sid).getD [] = _
        rw [lookupEntry_delEntry_self]
        show ([] : List Nat) = ((lookupEntry m.connections sid).getD []).erase c
        rw [h']
        exact hl.symm
      · simp only [hl, if_false]
        show (lookupEntry (setEntry m.connections sid (l.erase c)) sid).getD [] = _
        rw [lookupEntry_setEntry_self _ _ _ (by rw [h']; rfl)]
        show l.erase c = ((lookupEntry m.connections sid).getD []).erase c
        rw [h']
        rfl

theorem conns_disconnect_other (m : ConnectionManager) (c sid sid' : Nat)
    (hne : sid' ≠ sid) : (m.disconnect c sid).conns sid' = m.conns sid' := by
  unfold ConnectionManager.disconnect
  cases h : m.lookup sid with
  | none => rfl
  | some l =>
      by_cases hl : l.erase c = []
      · simp only [hl, if_true]
        show (lookupEntry (delEntry m.connections sid) sid').getD [] = _
        rw [lookupEntry_delEntry_other _ _ _ hne]
        rfl
      · simp only [hl, if_false]
        show (lookupEntry (setEntry m.connections sid (l.erase c)) sid').getD [] = _
        rw [lookupEntry_setEntry_other _ _ _ _ hne]
        rfl

theorem conns_foldl_disconnect (sid : Nat) (ds : List Nat) :
    ∀ m : ConnectionManager,
      (ds.foldl (fun mm d => mm.disconnect d sid) m).conns sid =
        ds.foldl (fun l d => l.erase d) (m.conns sid) := by
  induction ds with
  | nil => intro m; rfl
  | cons d ds ih =>
      intro m
      simp only [List.foldl_cons]
      rw [ih, conns_disconnect_self]

theorem conns_foldl_disconnect_other (sid sid' : Nat) (hne : sid' ≠ sid) (ds : List Nat) :
    ∀ m : ConnectionManager,
      (ds.foldl (fun mm d => mm.disconnect d sid) m).conns sid' = m.conns sid' := by
  induction ds with
  | nil => intro m; rfl
  | cons d ds ih =>
      intro m
      simp only [List.foldl_cons]
      rw [ih, conns_disconnect_other _ _ _ _ hne]

theorem foldl_erase_cons (x : Nat) (ds : List Nat) :
    ∀ l : List Nat, (∀ d ∈ ds, d ≠ x) →
      ds.foldl (fun acc d => acc.erase d) (x :: l) =
        x :: ds.foldl (fun acc d => acc.erase d) l := by
  induction ds with
  | nil => intro l _; rfl
  | cons d ds ih =>
      intro l hd
      have hdx : d ≠ x := hd d (List.mem_cons_self _ _)
      have hx : (x :: l).erase d = x :: l.erase d := by
        apply List.erase_cons_tail
        simpa using fun hh => hdx hh.symm
      simp only [List.foldl_cons, hx]
      exact ih _ (fun e he => hd e (List.mem_cons_of_mem _ he))

theorem foldl_erase_filter (f : Nat → Bool) :
    ∀ l : List Nat,
      (l.filter f).foldl (fun acc d => acc.erase d) l = l.filter (fun c => !(f c)) := by
  intro l
  induction l with
  | nil => rfl
  | cons x xs ih =>
      cases hf : f x with
      | true =>
          rw [List.filter_cons_of_pos (by simp [hf]), List.filter_cons_of_neg (by simp [hf])]
          simp only [List.foldl_cons, List.erase_cons_head]
          exact ih
      | false =>
          rw [List.filter_cons_of_neg (by simp [hf]), List.filter_cons_of_pos (by simp [hf])]
          rw [foldl_erase_cons _ _ _ ?hne]
          · rw [ih]
          case hne =>
            intro d hd hdx
            rw [List.mem_filter] at hd
            rw [hdx] at hd
            rw [hf] at hd
            exact Bool.false_ne_true hd.2

theorem broadcast_delivered (m : ConnectionManager) (sid : Nat) (fails : Nat → Bool) :
    (m.broadcast sid fails).2 = (m.conns sid).filter (fun c => !(fails c)) := rfl

theorem broadcast_conns_self (m : ConnectionManager) (sid : Nat) (fails : Nat → Bool) :
    (m.broadcast sid fails).1.conns sid = (m.conns sid).filter (fun c => !(fails c)) := by
  unfold ConnectionManager.broadcast
  simp only
  rw [conns_foldl_disconnect, foldl_erase_filter]

theorem broadcast_conns_other (m : ConnectionManager) (sid sid' : Nat)
    (fails : Nat → Bool) (hne : sid' ≠ sid) :
    (m.broadcast sid fails).1.conns sid' = m.conns sid' := by
  unfold ConnectionManager.broadcast
  simp only
  rw [conns_foldl_disconnect_other _ _ hne]

theorem broadcast_noFail (m : ConnectionManager) (sid : Nat) :
    (m.broadcast sid noSendFailures).1 = m := by
  unfold ConnectionManager.broadcast
  simp [noSendFailures]

/-! ### Preservation of the registry invariants -/

/-- Keys of a Python dict are unique; the embedding states this as an
invariant of the registry's entry list. -/
def ConnectionManager.keysNodup (m : ConnectionManager) : Prop :=
  (m.connections.map Prod.fst).Nodup

instance (m : ConnectionManager) : Decidable m.keysNodup :=
  List.nodupDecidable _

theorem mem_setEntry (L : List (Nat × List Nat)) (sid : Nat) (v : List Nat)
    (e : Nat × List Nat) (h : e ∈ setEntry L sid v) : e ∈ L ∨ e.2 = v := by
  induction L with
  | nil => simp [setEntry] at h
  | cons x L ih =>
      by_cases hx : x.1 = sid
      · simp only [setEntry, hx, if_true, List.mem_cons] at h
        rcases h with h | h
        · right
          rw [h]
        · rcases ih h with h1 | h2
          · exact Or.inl (List.mem_cons_of_mem _ h1)
          · exact Or.inr h2
      · simp only [setEntry, hx, if_false, List.mem_cons] at h
        rcases h with h | h
        · exact Or.inl (by rw [h]; exact List.mem_cons_self _ _)
        · rcases ih h with h1 | h2
          · exact Or.inl (List.mem_cons_of_mem _ h1)
          · exact Or.inr h2

theorem mem_delEntry (L : List (Nat × List Nat)) (sid : Nat) (e : Nat × List Nat)
    (h : e ∈ delEntry L sid) : e ∈ L := by
  induction L with
  | nil => simp [delEntry] at h
  | cons x L ih =>
      by_cases hx : x.1 = sid
      · simp only [delEntry, hx, if_true] at h
        exact List.mem_cons_of_mem _ (ih h)
      · simp only [delEntry, hx, if_false, List.mem_cons] at h
        rcases h with h | h
        · exact (by rw [h]; exact List.mem_cons_self _ _)
        · exact List.mem_cons_of_mem _ (ih h)

theorem noEmpty_connect (m : ConnectionManager) (c sid : Nat) (h : m.noEmpty) :
    (m.connect c sid).noEmpty := by
  unfold ConnectionManager.connect
  cases hl : m.lookup sid with
  | none =>
      intro e he
      rcases List.mem_append.mp he with h1 | h2
      · exact h e h1
      · simp only [List.mem_singleton] at h2
        rw [h2]
        simp
  | some l =>
      intro e he
      rcases mem_setEntry _ _ _ _ he with h1 | h2
      · exact h e h1
      · rw [h2]
        simp

theorem noEmpty_disconnect (m : ConnectionManager) (c sid : Nat) (h : m.noEmpty) :
    (m.disconnect c sid).noEmpty := by
  unfold ConnectionManager.disconnect
  cases hl : m.lookup sid with
  | none => exact h
  | some l =>
      by_cases he : l.erase c = []
      · simp only [he, if_true]
        intro e hme
        exact h e (mem_delEntry _ _ _ hme)
      · simp only [he, if_false]
        intro e hme
        rcases mem_setEntry _ _ _ _ hme with h1 | h2
        · exact h e h1
        · rw [h2]
          exact he

theorem noEmpty_foldl_disconnect (sid : Nat) (ds : List Nat) :
    ∀ m : ConnectionManager, m.noEmpty →
      (ds.foldl (fun mm d => mm.disconnect d sid) m).noEmpty := by
  induction ds with
  | nil => intro m h; exact h
  | cons d ds ih =>
      intro m h
      exact ih _ (noEmpty_disconnect _ _ _ h)

theorem noEmpty_broadcast (m : ConnectionManager) (sid : Nat) (fails : Nat → Bool)
    (h : m.noEmpty) : (m.broadcast sid fails).1.noEmpty := by
  unfold ConnectionManager.broadcast
  exact noEmpty_foldl_disconnect _ _ _ h

theorem keys_setEntry (L : List (Nat × List Nat)) (sid : Nat) (v : List Nat) :
    (setEntry L sid v).map Prod.fst = L.map Prod.fst := by
  induction L with
  | nil => rfl
  | cons x L ih =>
      by_cases hx : x.1 = sid
      · simp [setEntry, hx, ih]
      · simp [setEntry, hx, ih]

theorem keys_delEntry_sublist (L : List (Nat × List Nat)) (sid : Nat) :
    List.Sublist ((delEntry L sid).map Prod.fst) (L.map Prod.fst) := by
  induction L with
  | nil => simp [delEntry]
  | cons x L ih =>
      by_cases hx : x.1 = sid
      · simp only [delEntry, hx, if_true, List.map_cons]
        exact List.Sublist.cons _ ih
      · simp only [delEntry, hx, if_false, List.map_cons]
        exact List.Sublist.cons₂ _ ih

theorem keysNodup_disconnect (m : ConnectionManager) (c sid : Nat) (h : m.keysNodup) :
    (m.disconnect c sid).keysNodup := by
  unfold ConnectionManager.disconnect
  cases hl : m.lookup sid with
  | none => exact h
  | some l =>
      by_cases he : l.erase c = []
      · simp only [he, if_true]
        exact h.sublist (keys_delEntry_sublist _ _)
      · simp only [he, if_false]
        show ((setEntry m.connections sid (l.erase c)).map Prod.fst).Nodup
        rw [keys_setEntry]
        exact h

theorem setEntry_of_not_mem_keys (L : List (Nat × List Nat)) (sid : Nat) (v : List Nat)
    (h : sid ∉ L.map Prod.fst) : setEntry L sid v = L := by
  induction L with
  | nil => rfl
  | cons x L ih =>
      simp only [List.map_cons, List.mem_cons] at h
      push_neg at h
      have hx : ¬ x.1 = sid := fun hh => h.1 hh.symm
      simp only [setEntry, hx, if_false]
      rw [ih h.2]

theorem setEntry_self_eq (L : List (Nat × List Nat)) (sid : Nat) (l : List Nat)
    (hN : (L.map Prod.fst).Nodup) (h : lookupEntry L sid = some l) :
    setEntry L sid l = L := by
  induction L with
  | nil => simp [lookupEntry] at h
  | cons x L ih =>
      obtain ⟨k, w⟩ := x
      by_cases hx : k = sid
      · subst hx
        simp only [lookupEntry, if_true] at h
        cases h
        simp only [setEntry, if_true]
        have hnot : k ∉ L.map Prod.fst := (List.nodup_cons.mp (by simpa using hN)).1
        rw [setEntry_of_not_mem_keys _ _ _ hnot]
      · simp only [lookupEntry, hx, if_false] at h
        simp only [setEntry, hx, if_false]
        rw [ih (List.nodup_cons.mp (by simpa using hN)).2 h]

/-- `disconnect` of a connection that is not registered for the session is
a no-op on the whole registry. -/
theorem disconnect_not_registered (m : ConnectionManager) (c sid : Nat)
    (hN : m.keysNodup) (hE : m.noEmpty) (hc : c ∉ m.conns sid) :
    m.disconnect c sid = m := by
  unfold ConnectionManager.disconnect
  cases h : m.lookup sid with
  | none => rfl
  | some l =>
      have h' : lookupEntry m.connections sid = some l := h
      have hcl : c ∉ l := by
        have : m.conns sid = l := by
          show (lookupEntry m.connections sid).getD [] = l
          rw [h']
          rfl
        rw [← this]
        exact hc
      have herase : l.erase c = l := List.erase_of_not_mem hcl
      have hnil : l ≠ [] := hE _ (lookupEntry_mem _ _ _ h')
      show (if l.erase c = [] then ConnectionManager.mk (delEntry m.connections sid)
        else ConnectionManager.mk (setEntry m.connections sid (l.erase c))) = m
      rw [herase, if_neg hnil, setEntry_self_eq _ _ _ hN h']

/-! ### Store lemmas -/

theorem findSession_mem (l : List Session) (sid : Nat) (s : Session)
    (h : findSession l sid = some s) : s ∈ l ∧ s.id = sid := by
  induction l with
  | nil => simp [findSession] at h
  | cons t l ih =>
      by_cases ht : t.id = sid
      · simp only [findSession, ht, if_true] at h
        cases h
        exact ⟨List.mem_cons_self _ _, ht⟩
      · simp only [findSession, ht, if_false] at h
        exact ⟨List.mem_cons_of_mem _ (ih h).1, (ih h).2⟩

theorem findSession_none (l : List Session) (sid : Nat)
    (h : findSession l sid = none) : ∀ s ∈ l, s.id ≠ sid := by
  induction l with
  | nil => simp
  | cons t l ih =>
      by_cases ht : t.id = sid
      · simp [findSession, ht] at h
      · simp only [findSession, ht, if_false] at h
        intro s hs
        rcases List.mem_cons.mp hs with h1 | h2
        · rw [h1]; exact ht
        · exact ih h s h2

theorem mem_replaceById (l : List Session) (s t : Session)
    (h : t ∈ replaceById l s) : t = s ∨ (t ∈ l ∧ t.id ≠ s.id) := by
  induction l with
  | nil => simp [replaceById] at h
  | cons u l ih =>
      by_cases hu : u.id = s.id
      · simp only [replaceById, hu, if_true, List.mem_cons] at h
        rcases h with h | h
        · exact Or.inl h
        · rcases ih h with h1 | h2
          · exact Or.inl h1
          · exact Or.inr ⟨List.mem_cons_of_mem _ h2.1, h2.2⟩
      · simp only [replaceById, hu, if_false, List.mem_cons] at h
        rcases h with h | h
        · exact Or.inr ⟨by rw [h]; exact List.mem_cons_self _ _, by rw [h]; exact hu⟩
        · rcases ih h with h1 | h2
          · exact Or.inl h1
          · exact Or.inr ⟨List.mem_cons_of_mem _ h2.1, h2.2⟩

theorem ids_replaceById (l : List Session) (s : Session) :
    (replaceById l s).map Session.id = l.map Session.id := by
  induction l with
  | nil => rfl
  | cons u l ih =>
      by_cases hu : u.id = s.id
      · simp [replaceById, hu, ih]
      · simp only [replaceById, hu, if_false, List.map_cons, ih]

theorem exists_id_replaceById (l : List Session) (s : Session) (i : Nat)
    (h : ∃ t ∈ l, t.id = i) : ∃ t ∈ replaceById l s, t.id = i := by
  have h1 : i ∈ l.map Session.id := by
    rcases h with ⟨t, ht, hti⟩
    exact List.mem_map.mpr ⟨t, ht, hti⟩
  have h2 : i ∈ (replaceById l s).map Session.id := by
    rw [ids_replaceById]
    exact h1
  rcases List.mem_map.mp h2 with ⟨t, ht, hti⟩
  exact ⟨t, ht, hti⟩

theorem findSession_replaceById_self (l : List Session) (sid : Nat) (t s : Session)
    (hfind : findSession l sid = some t) (hid : s.id = sid) :
    findSession (replaceById l s) sid = some s := by
  induction l with
  | nil => simp [findSession] at hfind
  | cons u l ih =>
      by_cases hu : u.id = sid
      · have hu' : u.id = s.id := by rw [hu, hid]
        simp [replaceById, hu', findSession, hid]
      · have hu' : ¬ u.id = s.id := by rw [hid]; exact hu
        simp only [findSession, hu, if_false] at hfind
        simp only [replaceById, hu', if_false, findSession, hu, if_false]
        exact ih hfind

theorem incr_get (st : Store) (sid : Nat) (s : Session) (h : st.get sid = some s) :
    (st.incr sid).2.get sid = some { s with participants := s.participants + 1 } := by
  unfold Store.incr
  rw [h]
  exact findSession_replaceById_self _ _ _ _ h (findSession_mem _ _ _ h).2

theorem decr_get (st : Store) (sid : Nat) (s : Session) (h : st.get sid = some s) :
    (st.decr sid).2.get sid =
      some { s with participants := max (s.participants - 1) 0 } := by
  unfold Store.decr
  rw [h]
  exact findSession_replaceById_self _ _ _ _ h (findSession_mem _ _ _ h).2

theorem incr_none (st : Store) (sid : Nat) (h : st.get sid = none) :
    (st.incr sid).2 = st := by
  unfold Store.incr
  rw [h]

theorem decr_none (st : Store) (sid : Nat) (h : st.get sid = none) :
    (st.decr sid).2 = st := by
  unfold Store.decr
  rw [h]

theorem incr_sessions (st : Store) (sid : Nat) (s : Session) (h : st.get sid = some s) :
    (st.incr sid).2.sessions =
      replaceById st.sessions { s with participants := s.participants + 1 } := by
  unfold Store.incr
  rw [h]

theorem decr_sessions (st : Store) (sid : Nat) (s : Session) (h : st.get sid = some s) :
    (st.decr sid).2.sessions =
      replaceById st.sessions { s with participants := max (s.participants - 1) 0 } := by
  unfold Store.decr
  rw [h]

/-! ### Counter-interleaving lemmas -/

theorem nonNeg_applyCounterOp (st : Store) (sid : Nat) (op : CounterOp)
    (h : st.nonNeg) : (applyCounterOp sid st op).nonNeg := by
  cases op with
  | inc =>
      show (st.incr sid).2.nonNeg
      cases hget : st.get sid with
      | none => rw [incr_none _ _ hget]; exact h
      | some s =>
          rw [show (st.incr sid).2.nonNeg ↔
            ∀ t ∈ (st.incr sid).2.sessions, 0 ≤ t.participants from Iff.rfl]
          rw [incr_sessions _ _ _ hget]
          intro t ht
          rcases mem_replaceById _ _ _ ht with h1 | h2
          · rw [h1]
            have := h s (findSession_mem _ _ _ hget).1
            simp only
            omega
          · exact h t h2.1
  | dec =>
      show (st.decr sid).2.nonNeg
      cases hget : st.get sid with
      | none => rw [decr_none _ _ hget]; exact h
      | some s =>
          rw [show (st.decr sid).2.nonNeg ↔
            ∀ t ∈ (st.decr sid).2.sessions, 0 ≤ t.participants from Iff.rfl]
          rw [decr_sessions _ _ _ hget]
          intro t ht
          rcases mem_replaceById _ _ _ ht with h1 | h2
          · rw [h1]
            simp only
            exact le_max_right _ _
          · exact h t h2.1

theorem nonNeg_runCounterOps (sid : Nat) (ops : List CounterOp) :
    ∀ st : Store, st.nonNeg → (runCounterOps st sid ops).nonNeg := by
  induction ops with
  | nil => intro st h; exact h
  | cons op ops ih =>
      intro st h
      exact ih _ (nonNeg_applyCounterOp _ _ _ h)

theorem runCounterOps_get (sid : Nat) (ops : List CounterOp) :
    ∀ (st : Store) (s : Session), st.get sid = some s →
      ∃ s', (runCounterOps st sid ops).get sid = some s' ∧
        s'.participants = ops.foldl applyCtr s.participants := by
  induction ops with
  | nil =>
      intro st s h
      exact ⟨s, h, rfl⟩
  | cons op ops ih =>
      intro st s h
      cases op with
      | inc =>
          rcases ih ((st.incr sid).2) _ (incr_get _ _ _ h) with ⟨s', h1, h2⟩
          exact ⟨s', h1, by rw [h2]; rfl⟩
      | dec =>
          rcases ih ((st.decr sid).2) _ (decr_get _ _ _ h) with ⟨s', h1, h2⟩
          exact ⟨s', h1, by rw [h2]; rfl⟩

theorem foldl_applyCtr_eq (ops : List CounterOp) :
    ∀ p : Int, 0 ≤ p →
      (∀ k, (countDec (ops.take k) : Int) ≤ p + countInc (ops.take k)) →
      ops.foldl applyCtr p = p + countInc ops - countDec ops := by
  induction ops with
  | nil =>
      intro p _ _
      simp [countInc, countDec]
  | cons op ops ih =>
      intro p hp hpre
      cases op with
      | inc =>
          have hstep : ops.foldl applyCtr (p + 1) =
              (p + 1) + countInc ops - countDec ops := by
            apply ih (p + 1) (by omega)
            intro k
            have := hpre (k + 1)
            simp only [List.take_succ_cons, countInc, countDec] at this
            push_cast at this ⊢
            omega
          show ops.foldl applyCtr (applyCtr p CounterOp.inc) = _
          rw [show applyCtr p CounterOp.inc = p + 1 from rfl, hstep]
          simp only [countInc, countDec]
          push_cast
          omega
      | dec =>
          have h1 : (1 : Int) ≤ p := by
            have := hpre 1
            simp only [List.take_succ_cons, List.take_zero, countInc, countDec] at this
            push_cast at this
            omega
          have hmax : applyCtr p CounterOp.dec = p - 1 := by
            show max (p - 1) 0 = p - 1
            omega
          have hstep : ops.foldl applyCtr (p - 1) =
              (p - 1) + countInc ops - countDec ops := by
            apply ih (p - 1) (by omega)
            intro k
            have := hpre (k + 1)
            simp only [List.take_succ_cons, countInc, countDec] at this
            push_cast at this ⊢
            omega
          show ops.foldl applyCtr (applyCtr p CounterOp.dec) = _
          rw [hmax, hstep]
          simp only [countInc, countDec]
          push_cast
          omega

/-! ### Gateway invariant lemmas -/

theorem mem_setEntry_key (L : List (Nat × List Nat)) (sid : Nat) (v : List Nat)
    (e : Nat × List Nat) (h : e ∈ setEntry L sid v) : e ∈ L ∨ e.1 = sid := by
  induction L with
  | nil => simp [setEntry] at h
  | cons x L ih =>
      by_cases hx : x.1 = sid
      · simp only [setEntry, hx, if_true, List.mem_cons] at h
        rcases h with h | h
        · right
          rw [h]
        · rcases ih h with h1 | h2
          · exact Or.inl (List.mem_cons_of_mem _ h1)
          · exact Or.inr h2
      · simp only [setEntry, hx, if_false, List.mem_cons] at h
        rcases h with h | h
        · exact Or.inl (by rw [h]; exact List.mem_cons_self _ _)
        · rcases ih h with h1 | h2
          · exact Or.inl (List.mem_cons_of_mem _ h1)
          · exact Or.inr h2

theorem mem_connect_entries (m : ConnectionManager) (c sid : Nat) (e : Nat × List Nat)
    (h : e ∈ (m.connect c sid).connections) : e ∈ m.connections ∨ e.1 = sid := by
  unfold ConnectionManager.connect at h
  cases hl : m.lookup sid with
  | none =>
      rw [hl] at h
      rcases List.mem_append.mp h with h1 | h2
      · exact Or.inl h1
      · simp only [List.mem_singleton] at h2
        right
        rw [h2]
  | some l =>
      rw [hl] at h
      exact mem_setEntry_key _ _ _ _ h

theorem mem_disconnect_entries (m : ConnectionManager) (c sid : Nat) (e : Nat × List Nat)
    (h : e ∈ (m.disconnect c sid).connections) : e ∈ m.connections ∨ e.1 = sid := by
  unfold ConnectionManager.disconnect at h
  cases hl : m.lookup sid with
  | none =>
      rw [hl] at h
      exact Or.inl h
  | some l =>
      rw [hl] at h
      simp only at h
      by_cases he : l.erase c = []
      · rw [if_pos he] at h
        exact Or.inl (mem_delEntry _ _ _ h)
      · rw [if_neg he] at h
        exact mem_setEntry_key _ _ _ _ h

theorem conns_ne_nil_entry (m : ConnectionManager) (sid : Nat)
    (h : m.conns sid ≠ []) : ∃ l, (sid, l) ∈ m.connections := by
  cases hl : lookupEntry m.connections sid with
  | none =>
      exfalso
      apply h
      show (lookupEntry m.connections sid).getD [] = []
      rw [hl]
      rfl
  | some l => exact ⟨l, lookupEntry_mem _ _ _ hl⟩

theorem inv_count (g : GatewayState) (hI : g.Inv) (sid : Nat) :
    participantCountOf g.store sid = ((g.hub.get_participant_count sid : Nat) : Int) := by
  unfold participantCountOf
  cases hget : g.store.get sid with
  | some s =>
      have hs := findSession_mem _ _ _ hget
      have := hI.1 s hs.1
      rw [hs.2] at this
      exact this
  | none =>
      show (0 : Int) = ((g.hub.conns sid).length : Int)
      by_cases hc : g.hub.conns sid = []
      · rw [hc]
        rfl
      · exfalso
        rcases conns_ne_nil_entry _ _ hc with ⟨l, hl⟩
        rcases hI.2 (sid, l) hl with ⟨s, hs, hsid⟩
        exact findSession_none _ _ hget s hs hsid

theorem gwStep_inv (g : GatewayState) (e : GEvent) (hI : g.Inv)
    (hwf : wfStep g e = true) : ((gwStep noSendFailures g e).1).Inv := by
  cases e with
  | connect c sid =>
      show ((gwConnect noSendFailures g c sid).1).Inv
      unfold gwConnect
      cases hget : g.store.get sid with
      | none => exact hI
      | some s0 =>
          have hs0 := findSession_mem _ _ _ hget
          simp only [broadcast_noFail]
          constructor
          · intro t ht
            have ht' : t ∈ replaceById g.store.sessions
                { s0 with participants := s0.participants + 1 } := by
              rw [← incr_sessions _ _ _ hget]
              exact ht
            rcases mem_replaceById _ _ _ ht' with h1 | h2
            · rw [h1]
              show s0.participants + 1 = (((g.hub.connect c sid).conns s0.id).length : Int)
              rw [hs0.2, conns_connect_self]
              have := hI.1 s0 hs0.1
              rw [hs0.2] at this
              rw [List.length_append]
              simp only [List.length_singleton]
              push_cast
              omega
            · have hne : t.id ≠ sid := by
                intro hh
                apply h2.2
                rw [hh, hs0.2]
              rw [conns_connect_other _ _ _ _ hne]
              exact hI.1 t h2.1
          · intro en hen
            rcases mem_connect_entries _ _ _ _ hen with h1 | h2
            · rcases hI.2 en h1 with ⟨s, hs, hsid⟩
              show ∃ t ∈ (SessionService.add_participant g.store sid).2.sessions, t.id = en.1
              show ∃ t ∈ (g.store.incr sid).2.sessions, t.id = en.1
              rw [incr_sessions _ _ _ hget]
              exact exists_id_replaceById _ _ _ ⟨s, hs, hsid⟩
            · show ∃ t ∈ (g.store.incr sid).2.sessions, t.id = en.1
              rw [incr_sessions _ _ _ hget, h2]
              exact exists_id_replaceById _ _ _ ⟨s0, hs0.1, hs0.2⟩
  | disconnect c sid =>
      have hc : c ∈ g.hub.conns sid := of_decide_eq_true hwf
      show ((gwDisconnect noSendFailures g c sid).1).Inv
      unfold gwDisconnect
      simp only [broadcast_noFail]
      cases hget : g.store.get sid with
      | none =>
          exfalso
          have hne : g.hub.conns sid ≠ [] := by
            intro hh
            rw [hh] at hc
            exact List.not_mem_nil _ hc
          rcases conns_ne_nil_entry _ _ hne with ⟨l, hl⟩
          rcases hI.2 (sid, l) hl with ⟨s, hs, hsid⟩
          exact findSession_none _ _ hget s hs hsid
      | some s0 =>
          have hs0 := findSession_mem _ _ _ hget
          have hlen : 0 < (g.hub.conns sid).length := List.length_pos_of_mem hc
          have hpart : s0.participants = ((g.hub.conns sid).length : Int) := by
            have := hI.1 s0 hs0.1
            rw [hs0.2] at this
            exact this
          constructor
          · intro t ht
            have ht' : t ∈ replaceById g.store.sessions
                { s0 with participants := max (s0.participants - 1) 0 } := by
              rw [← decr_sessions _ _ _ hget]
              exact ht
            rcases mem_replaceById _ _ _ ht' with h1 | h2
            · rw [h1]
              show max (s0.participants - 1) 0 =
                (((g.hub.disconnect c sid).conns s0.id).length : Int)
              rw [hs0.2, conns_disconnect_self, List.length_erase_of_mem hc]
              omega
            · have hne : t.id ≠ sid := by
                intro hh
                apply h2.2
                rw [hh, hs0.2]
              rw [conns_disconnect_other _ _ _ _ hne]
              exact hI.1 t h2.1
          · intro en hen
            rcases mem_disconnect_entries _ _ _ _ hen with h1 | h2
            · rcases hI.2 en h1 with ⟨s, hs, hsid⟩
              show ∃ t ∈ (g.store.decr sid).2.sessions, t.id = en.1
              rw [decr_sessions _ _ _ hget]
              exact exists_id_replaceById _ _ _ ⟨s, hs, hsid⟩
            · show ∃ t ∈ (g.store.decr sid).2.sessions, t.id = en.1
              rw [decr_sessions _ _ _ hget, h2]
              exact exists_id_replaceById _ _ _ ⟨s0, hs0.1, hs0.2⟩

theorem gwRun_inv (tr : List GEvent) :
    ∀ g : GatewayState, g.Inv → WFTrace noSendFailures g tr →
      (gwRun noSendFailures g tr).Inv := by
  induction tr with
  | nil => intro g hI _; exact hI
  | cons e tr ih =>
      intro g hI hwf
      exact ih _ (gwStep_inv g e hI hwf.1) hwf.2

theorem gwStep_events (fails : Nat → Bool) (g : GatewayState) (e : GEvent) :
    ∀ p ∈ (gwStep fails g e).2,
      p.2 = participantCountOf (gwStep fails g e).1.store p.1 := by
  cases e with
  | connect c sid =>
      intro p hp
      have hp' : p ∈ (gwConnect fails g c sid).2 := hp
      show p.2 = participantCountOf (gwConnect fails g c sid).1.store p.1
      revert hp'
      unfold gwConnect
      cases hget : g.store.get sid with
      | none =>
          intro hp'
          simp at hp'
      | some s0 =>
          intro hp'
          simp only [List.mem_singleton] at hp'
          rw [hp']
  | disconnect c sid =>
      intro p hp
      have hp' : p ∈ (gwDisconnect fails g c sid).2 := hp
      show p.2 = participantCountOf (gwDisconnect fails g c sid).1.store p.1
      simp only [gwDisconnect, List.mem_singleton] at hp'
      rw [hp']
      rfl

/-! ### Claim theorems -/

/-- C1: the claim says every subscriber observes code-update event E1
before E2 whenever E1 is submitted before E2 for the same session.  The
code has no per-session serialization: the two broadcasts run as
independent background tasks whose `await send_json` calls interleave.
Under the schedule task1-task2-task2-task1 over subscribers 10 and 11,
task 1 (event 1, submitted first) and task 2 (event 2) deliver so that
subscriber 10 observes event 1 then event 2 while subscriber 11 observes
event 2 then event 1 — the guarantee fails on the code. -/
theorem broadcast_interleaving_reorders :
    observedBy (runTwoBroadcasts 1 2 [10, 11] [10, 11] [true, false, false, true]) 10 =
      [1, 2] ∧
    observedBy (runTwoBroadcasts 1 2 [10, 11] [10, 11] [true, false, false, true]) 11 =
      [2, 1] := by
  constructor <;> rfl

/-- C2 (counterexample): the claim "every interleaving of N increments and
M decrements with N ≥ M ends at N − M" fails on the clamp-at-0 decrement:
with N = M = 1 the schedule decrement-then-increment ends at 1, not 0. -/
theorem lost_update_counterexample :
    countInc [CounterOp.dec, CounterOp.inc] = 1 ∧
    countDec [CounterOp.dec, CounterOp.inc] = 1 ∧
    (runCounterOps ⟨[⟨0, "", Language.javascript, 0, 0⟩], 1⟩ 0
        [CounterOp.dec, CounterOp.inc]).get 0 =
      some ⟨0, "", Language.javascript, 0, 1⟩ ∧
    (1 : Int) ≠ (1 : Int) - (1 : Int) := by
  refine ⟨rfl, rfl, by decide, by decide⟩

/-- C2 (amended): for every interleaving of atomic increments and
decrements on a session starting at participants = 0, in which no prefix
has more decrements than increments (so the clamp never engages), the
final count equals N − M — no increment or decrement is lost. -/
theorem no_lost_updates_amended (st : Store) (sid : Nat) (ops : List CounterOp)
    (s : Session) (h : st.get sid = some s) (h0 : s.participants = 0)
    (hpre : ∀ k, k ≤ ops.length →
      (countDec (ops.take k) : Int) ≤ countInc (ops.take k)) :
    ∃ s', (runCounterOps st sid ops).get sid = some s' ∧
      s'.participants = (countInc ops : Int) - countDec ops := by
  rcases runCounterOps_get sid ops st s h with ⟨s', h1, h2⟩
  refine ⟨s', h1, ?_⟩
  rw [h2, h0]
  have hpre' : ∀ k, (countDec (ops.take k) : Int) ≤ 0 + countInc (ops.take k) := by
    intro k
    by_cases hk : k ≤ ops.length
    · have := hpre k hk
      omega
    · have hlen : ops.length ≤ k := le_of_not_le hk
      rw [List.take_of_length_le hlen]
      have := hpre ops.length (le_refl _)
      rw [List.take_length] at this
      omega
  rw [foldl_applyCtr_eq ops 0 (le_refl 0) hpre']
  omega

theorem no_lost_updates_amended_witness :
    (⟨[⟨0, "", Language.javascript, 0, 0⟩], 1⟩ : Store).get 0 =
      some ⟨0, "", Language.javascript, 0, 0⟩ ∧
    (⟨0, "", Language.javascript, 0, 0⟩ : Session).participants = 0 ∧
    (∀ k, k ≤ ([CounterOp.inc, CounterOp.inc, CounterOp.dec].length) →
      (countDec ([CounterOp.inc, CounterOp.inc, CounterOp.dec].take k) : Int) ≤
        countInc ([CounterOp.inc, CounterOp.inc, CounterOp.dec].take k)) ∧
    (∃ s', (runCounterOps ⟨[⟨0, "", Language.javascript, 0, 0⟩], 1⟩ 0
        [CounterOp.inc, CounterOp.inc, CounterOp.dec]).get 0 = some s' ∧
      s'.participants = (countInc [CounterOp.inc, CounterOp.inc, CounterOp.dec] : Int) -
        countDec [CounterOp.inc, CounterOp.inc, CounterOp.dec]) :=
  ⟨by decide, by decide, by decide,
    no_lost_updates_amended ⟨[⟨0, "", Language.javascript, 0, 0⟩], 1⟩ 0
      [CounterOp.inc, CounterOp.inc, CounterOp.dec] ⟨0, "", Language.javascript, 0, 0⟩
      (by decide) (by decide) (by decide)⟩

/-- C3: participants never goes negative: every interleaving of counter
operations preserves non-negativity of every stored record, and a
decrement clamps at 0 — at participants = 0 it stores 0 again, no matter
how many decrements already ran. -/
theorem participants_never_negative (st : Store) (sid : Nat) (ops : List CounterOp)
    (s : Session) (h1 : st.nonNeg) (h2 : st.get sid = some s) :
    (runCounterOps st sid ops).nonNeg ∧
    (st.decr sid).2.get sid =
      some { s with participants := max (s.participants - 1) 0 } ∧
    (s.participants = 0 →
      (st.decr sid).2.get sid = some { s with participants := 0 }) := by
  refine ⟨nonNeg_runCounterOps _ _ _ h1, decr_get _ _ _ h2, ?_⟩
  intro h0
  rw [decr_get _ _ _ h2, h0]
  norm_num

theorem participants_never_negative_witness :
    (⟨[⟨0, "", Language.javascript, 0, 0⟩], 1⟩ : Store).nonNeg ∧
    (⟨[⟨0, "", Language.javascript, 0, 0⟩], 1⟩ : Store).get 0 =
      some ⟨0, "", Language.javascript, 0, 0⟩ ∧
    (runCounterOps ⟨[⟨0, "", Language.javascript, 0, 0⟩], 1⟩ 0
      [CounterOp.dec, CounterOp.dec, CounterOp.dec]).nonNeg :=
  ⟨by decide, by decide,
    (participants_never_negative ⟨[⟨0, "", Language.javascript, 0, 0⟩], 1⟩ 0
      [CounterOp.dec, CounterOp.dec, CounterOp.dec] ⟨0, "", Language.javascript, 0, 0⟩
      (by decide) (by decide)).1⟩

/-- C4: `update_code` on a stored session replaces `code` unconditionally,
replaces `language` only when one is supplied (otherwise the stored
language is preserved, never reset to a default), and leaves `id` and
`createdAt` unchanged; the merged record is what ends up stored. -/
theorem update_code_merge_rule (st : Store) (sid : Nat) (s : Session) (c : String)
    (l : Option Language) (h : st.get sid = some s) :
    ∃ s' st', SessionService.update_code st sid ⟨c, l⟩ = (some s', st') ∧
      st'.get sid = some s' ∧ s'.code = c ∧ s'.language = l.getD s.language ∧
      s'.id = s.id ∧ s'.createdAt = s.createdAt := by
  have hs := findSession_mem _ _ _ h
  have hfind : findSession st.sessions sid = some s := h
  refine ⟨{ s with code := c, language := l.getD s.language },
    ⟨replaceById st.sessions { s with code := c, language := l.getD s.language },
      st.nextId⟩, ?_, ?_, rfl, rfl, rfl, rfl⟩
  · show SessionService.update_code st sid ⟨c, l⟩ = _
    unfold SessionService.update_code
    rw [h]
    show Store.update st _ = _
    unfold Store.update
    have hf2 : findSession st.sessions
        ({ s with code := c, language := l.getD s.language } : Session).id = some s := by
      show findSession st.sessions s.id = some s
      rw [hs.2]
      exact hfind
    rw [hf2]
  · exact findSession_replaceById_self _ _ _ _ hfind hs.2

theorem update_code_merge_rule_witness :
    (⟨[⟨0, "abc", Language.javascript, 5, 0⟩], 1⟩ : Store).get 0 =
      some ⟨0, "abc", Language.javascript, 5, 0⟩ ∧
    (∃ s' st', SessionService.update_code ⟨[⟨0, "abc", Language.javascript, 5, 0⟩], 1⟩ 0
        ⟨"xyz", none⟩ = (some s', st') ∧
      st'.get 0 = some s' ∧ s'.code = "xyz" ∧
      s'.language = (none : Option Language).getD Language.javascript ∧
      s'.id = 0 ∧ s'.createdAt = 5) :=
  ⟨by decide,
    update_code_merge_rule ⟨[⟨0, "abc", Language.javascript, 5, 0⟩], 1⟩ 0
      ⟨0, "abc", Language.javascript, 5, 0⟩ "xyz" none (by decide)⟩

/-- C5: a send failure to one subscriber never blocks delivery to the
others: `broadcast` (a total function — every exception is caught)
delivers the event to exactly the non-failing registered connections in
registry order, removes each failing connection from the session's
subscriber set within the same call, and leaves other sessions'
subscriber sets untouched. -/
theorem broadcast_failure_containment (m : ConnectionManager) (sid : Nat)
    (fails : Nat → Bool) :
    (m.broadcast sid fails).2 = (m.conns sid).filter (fun c => !(fails c)) ∧
    (m.broadcast sid fails).1.conns sid = (m.conns sid).filter (fun c => !(fails c)) ∧
    (∀ c ∈ m.conns sid, fails c = true → c ∉ (m.broadcast sid fails).1.conns sid) ∧
    (∀ sid', sid' ≠ sid → (m.broadcast sid fails).1.conns sid' = m.conns sid') := by
  refine ⟨broadcast_delivered m sid fails, broadcast_conns_self m sid fails, ?_, ?_⟩
  · intro c _ hf hmem
    rw [broadcast_conns_self] at hmem
    rcases List.mem_filter.mp hmem with ⟨_, hneg⟩
    rw [hf] at hneg
    simp at hneg
  · intro sid' hne
    exact broadcast_conns_other m sid sid' fails hne

theorem broadcast_failure_containment_witness :
    (11 : Nat) ∈ (ConnectionManager.mk [(1, [10, 11, 12])]).conns 1 ∧
    ((fun c : Nat => c == 11) 11 = true) ∧
    ((ConnectionManager.mk [(1, [10, 11, 12])]).broadcast 1 (fun c => c == 11)).2 =
      ((ConnectionManager.mk [(1, [10, 11, 12])]).conns 1).filter (fun c => !(c == 11)) ∧
    (11 : Nat) ∉
      ((ConnectionManager.mk [(1, [10, 11, 12])]).broadcast 1 (fun c => c == 11)).1.conns 1 :=
  ⟨by decide, by decide,
    (broadcast_failure_containment (ConnectionManager.mk [(1, [10, 11, 12])]) 1
      (fun c => c == 11)).1,
    (broadcast_failure_containment (ConnectionManager.mk [(1, [10, 11, 12])]) 1
      (fun c => c == 11)).2.2.1 11 (by decide) (by decide)⟩

/-- C6: along every well-formed, failure-free trace of completed gateway
operations from a consistent state, after every operation the hub's
`get_participant_count` equals the store's `participants` counter for
every session id, and every `participant_joined` / `participant_left`
event emitted by the next completed operation carries exactly that common
value. -/
theorem gateway_count_consistency (g : GatewayState) (tr : List GEvent)
    (hI : g.Inv) (hwf : WFTrace noSendFailures g tr) :
    (∀ sid, participantCountOf (gwRun noSendFailures g tr).store sid =
      ((gwRun noSendFailures g tr).hub.get_participant_count sid : Int)) ∧
    (∀ e, wfStep (gwRun noSendFailures g tr) e = true →
      ∀ p ∈ (gwStep noSendFailures (gwRun noSendFailures g tr) e).2,
        p.2 = ((gwStep noSendFailures (gwRun noSendFailures g tr) e).1.hub.get_participant_count
          p.1 : Int)) := by
  have hIf : (gwRun noSendFailures g tr).Inv := gwRun_inv tr g hI hwf
  constructor
  · intro sid
    exact inv_count _ hIf sid
  · intro e he p hp
    have h1 := gwStep_events noSendFailures (gwRun noSendFailures g tr) e p hp
    have hIf' := gwStep_inv (gwRun noSendFailures g tr) e hIf he
    rw [h1]
    exact inv_count _ hIf' p.1

theorem gateway_count_consistency_witness :
    (GatewayState.mk ⟨[⟨0, "", Language.javascript, 0, 0⟩], 1⟩ ⟨[]⟩).Inv ∧
    WFTrace noSendFailures (GatewayState.mk ⟨[⟨0, "", Language.javascript, 0, 0⟩], 1⟩ ⟨[]⟩)
      [GEvent.connect 5 0, GEvent.connect 6 0, GEvent.disconnect 5 0] ∧
    participantCountOf (gwRun noSendFailures
      (GatewayState.mk ⟨[⟨0, "", Language.javascript, 0, 0⟩], 1⟩ ⟨[]⟩)
      [GEvent.connect 5 0, GEvent.connect 6 0, GEvent.disconnect 5 0]).store 0 =
    ((gwRun noSendFailures
      (GatewayState.mk ⟨[⟨0, "", Language.javascript, 0, 0⟩], 1⟩ ⟨[]⟩)
      [GEvent.connect 5 0, GEvent.connect 6 0, GEvent.disconnect 5 0]).hub.get_participant_count
        0 : Int) :=
  ⟨by decide, by decide,
    (gateway_count_consistency _ _ (by decide) (by decide)).1 0⟩

/-- C7: disconnecting a connection that is not (or no longer) registered
for the session is a no-op: the registry — and with it the hub's
participant count — is left unchanged and nothing fails (the model is a
total function, as the source checks membership before removing).
Consequently, when a connection is registered at most once, disconnecting
it twice equals disconnecting it once. -/
theorem disconnect_idempotent (m : ConnectionManager) (c sid : Nat)
    (hN : m.keysNodup) (hE : m.noEmpty) :
    (c ∉ m.conns sid → m.disconnect c sid = m) ∧
    ((m.conns sid).count c ≤ 1 →
      (m.disconnect c sid).disconnect c sid = m.disconnect c sid) := by
  constructor
  · intro hc
    exact disconnect_not_registered _ _ _ hN hE hc
  · intro hcount
    by_cases hc : c ∈ m.conns sid
    · apply disconnect_not_registered _ _ _ (keysNodup_disconnect _ _ _ hN)
        (noEmpty_disconnect _ _ _ hE)
      rw [conns_disconnect_self]
      intro hmem
      have h1 : (m.conns sid).count c = 1 := by
        have hpos : 0 < (m.conns sid).count c := List.count_pos_iff.mpr hc
        omega
      have h2 : ((m.conns sid).erase c).count c = 0 := by
        rw [List.count_erase_self, h1]
      exact (List.count_eq_zero.mp h2) hmem
    · rw [disconnect_not_registered _ _ _ hN hE hc]
      exact disconnect_not_registered _ _ _ hN hE hc

theorem disconnect_idempotent_witness :
    (ConnectionManager.mk [(1, [5])]).keysNodup ∧
    (ConnectionManager.mk [(1, [5])]).noEmpty ∧
    (7 : Nat) ∉ (ConnectionManager.mk [(1, [5])]).conns 1 ∧
    (ConnectionManager.mk [(1, [5])]).disconnect 7 1 = ConnectionManager.mk [(1, [5])] ∧
    (((ConnectionManager.mk [(1, [5])]).disconnect 5 1).disconnect 5 1 =
      (ConnectionManager.mk [(1, [5])]).disconnect 5 1) :=
  ⟨by decide, by decide, by decide,
    (disconnect_idempotent (ConnectionManager.mk [(1, [5])]) 7 1 (by decide) (by decide)).1
      (by decide),
    (disconnect_idempotent (ConnectionManager.mk [(1, [5])]) 5 1 (by decide) (by decide)).2
      (by decide)⟩

/-- C8: `update_code` against an id that was never created answers
not-found, leaves the store unchanged, and schedules no broadcast task, so
no event reaches any subscriber. -/
theorem update_code_not_found (st : Store) (sid : Nat) (req : UpdateCodeRequest)
    (h : st.get sid = none) :
    update_code_route st sid req = (RouterResult.notFound, st, []) := by
  unfold update_code_route SessionService.update_code
  rw [h]

theorem update_code_not_found_witness :
    (⟨[], 0⟩ : Store).get 42 = none ∧
    update_code_route ⟨[], 0⟩ 42 ⟨"x", none⟩ = (RouterResult.notFound, ⟨[], 0⟩, []) :=
  ⟨by decide, update_code_not_found ⟨[], 0⟩ 42 ⟨"x", none⟩ (by decide)⟩

/-- C9: `create(L)` returns a session with empty code, zero participants,
language L, the supplied creation timestamp and an id fresh with respect
to every stored session, and store well-formedness (all ids below the id
counter) is preserved, keeping later ids fresh as well. -/
theorem create_session_initial_state (st : Store) (lang : Language) (now : Nat)
    (hwf : st.WF) :
    (st.create lang now).1.code = "" ∧
    (st.create lang now).1.participants = 0 ∧
    (st.create lang now).1.language = lang ∧
    (st.create lang now).1.createdAt = now ∧
    (∀ t ∈ st.sessions, t.id ≠ (st.create lang now).1.id) ∧
    (st.create lang now).2.WF := by
  refine ⟨rfl, rfl, rfl, rfl, ?_, ?_⟩
  · intro t ht hid
    have hlt := hwf t ht
    rw [hid] at hlt
    exact lt_irrefl _ hlt
  · intro t ht
    rcases List.mem_append.mp ht with h1 | h2
    · have := hwf t h1
      show t.id < st.nextId + 1
      omega
    · simp only [List.mem_singleton] at h2
      rw [h2]
      show st.nextId < st.nextId + 1
      omega

theorem create_session_initial_state_witness :
    (⟨[], 0⟩ : Store).WF ∧
    ((⟨[], 0⟩ : Store).create Language.python 7).1.code = "" ∧
    ((⟨[], 0⟩ : Store).create Language.python 7).1.participants = 0 ∧
    ((⟨[], 0⟩ : Store).create Language.python 7).1.language = Language.python ∧
    ((⟨[], 0⟩ : Store).create Language.python 7).1.createdAt = 7 :=
  ⟨by decide,
    (create_session_initial_state ⟨[], 0⟩ Language.python 7 (by decide)).1,
    (create_session_initial_state ⟨[], 0⟩ Language.python 7 (by decide)).2.1,
    (create_session_initial_state ⟨[], 0⟩ Language.python 7 (by decide)).2.2.1,
    (create_session_initial_state ⟨[], 0⟩ Language.python 7 (by decide)).2.2.2.1⟩

/-- C10: the registry never maps a session id to an empty connection
list: the empty registry satisfies the invariant and `connect`,
`disconnect` (which deletes an entry on removing its last connection) and
`broadcast` (which prunes dead connections through `disconnect`) all
preserve it; and `get_participant_count` is 0 for any session id with no
registered connections, including ids never connected to. -/
theorem registry_no_empty_entries (m : ConnectionManager) (c sid : Nat)
    (fails : Nat → Bool) :
    (ConnectionManager.noEmpty ⟨[]⟩) ∧
    (m.noEmpty → (m.connect c sid).noEmpty) ∧
    (m.noEmpty → (m.disconnect c sid).noEmpty) ∧
    (m.noEmpty → (m.broadcast sid fails).1.noEmpty) ∧
    (m.conns sid = [] → m.get_participant_count sid = 0) := by
  refine ⟨?_, noEmpty_connect m c sid, noEmpty_disconnect m c sid,
    noEmpty_broadcast m sid fails, ?_⟩
  · intro e he
    simp at he
  · intro h
    show (m.conns sid).length = 0
    rw [h]
    rfl

theorem registry_no_empty_entries_witness :
    (ConnectionManager.mk [(0, [1])]).noEmpty ∧
    ((ConnectionManager.mk [(0, [1])]).connect 2 5).noEmpty ∧
    ((ConnectionManager.mk [(0, [1])]).disconnect 1 0).noEmpty ∧
    ((ConnectionManager.mk [(0, [1])]).broadcast 0 (fun c => c == 1)).1.noEmpty ∧
    (ConnectionManager.mk [(0, [1])]).conns 5 = [] ∧
    (ConnectionManager.mk [(0, [1])]).get_participant_count 5 = 0 :=
  ⟨by decide,
    (registry_no_empty_entries (ConnectionManager.mk [(0, [1])]) 2 5
      (fun c => c == 1)).2.1 (by decide),
    (registry_no_empty_entries (ConnectionManager.mk [(0, [1])]) 1 0
      (fun c => c == 1)).2.2.1 (by decide),
    (registry_no_empty_entries (ConnectionManager.mk [(0, [1])]) 1 0
      (fun c => c == 1)).2.2.2.1 (by decide),
    by decide,
    (registry_no_empty_entries (ConnectionManager.mk [(0, [1])]) 2 5
      (fun c => c == 1)).2.2.2.2 (by decide)⟩

end Algoroom
